import Mathlib

/-!
Verification of the LoCoMo ingestion script (`scripts/ingest_locomo.py`).

The script's pure logic is shallowly embedded here:
* `pair_turns` — pairing of adjacent speaker turns (lines 53-68);
* `headerRecord` / `sessionTurnsOut` — the per-session header synthesis
  (lines 85-93 of `ingest_sample`);
* `sessionKeys` — selection and numeric ordering of session keys
  (lines 76-79);
* `normalize_locomo_date` — date-label normalization (lines 29-50);
* `sample_id_to_uuid` — the deterministic UUIDv5 derivation (lines 25-26),
  with SHA-1 embedded in full;
* `sessionPayload` / `ingest_sample_requests` / `ingestRun` — the request
  payloads and the sequential driver with its fail-fast error propagation
  (lines 71-109 and 161-171), with HTTP responses supplied by an oracle.

Machine integers are modelled as `Nat` with explicit masking where overflow
matters.  Python exceptions are modelled with `Except`.
-/

namespace Ingest

/-- One speaker turn of a session: the `{speaker, text}` objects of the
corpus (spec §3). -/
structure Turn where
  speaker : String
  text : String
deriving DecidableEq, Repr

/-- One normalized exchange record: the `{user, assistant}` dicts built by
the script. -/
structure Exchange where
  user : String
  assistant : String
deriving DecidableEq, Repr

/-- Formatting of one turn, `f"{t['speaker']}: {t['text']}"` (lines 59-60,
65 of the script). -/
def fmtTurn (t : Turn) : String :=
  t.speaker ++ ": " ++ t.text

/-- Embedding of `pair_turns` (lines 53-68).  The Python loop walks the
list two indices at a time (`while i < len(turns) - 1`, `i += 2`) and then
emits the leftover turn, if any, with the `"(no response)"` placeholder;
that index walk is exactly this structural recursion. -/
def pair_turns : List Turn → List Exchange
  | t0 :: t1 :: rest =>
      { user := fmtTurn t0, assistant := fmtTurn t1 } :: pair_turns rest
  | [t] => [{ user := fmtTurn t, assistant := "(no response)" }]
  | [] => []

/-- The `user`/`assistant` fields of a record list, interleaved in output
order: `[u0, a0, u1, a1, ...]`. -/
def exchangeFields : List Exchange → List String
  | [] => []
  | e :: rest => e.user :: e.assistant :: exchangeFields rest

/-! Date normalization (`normalize_locomo_date`, lines 29-50).

The Python code strips the input, prefix-matches the regex
`\d{1,2}:\d{2}\s*(?:am|pm)\s+on\s+(\d{1,2})\s+(\w+),?\s+(\d{4})` with
IGNORECASE, and on a match runs
`datetime.strptime(f"{day} {month} {year}", "%d %B %Y")` followed by
`strftime("%Y-%m-%d")`, falling back to the original string when either
step fails.  Each quantifier in this pattern is followed by a disjoint
character class (digits, whitespace and word characters never overlap the
next literal), so the backtracking regex is equivalent to the maximal-munch
scanner below; the character classes are modelled over ASCII. -/

/-- Test for the regex class `\d` (ASCII). -/
def isDigitC (c : Char) : Bool :=
  '0' ≤ c && c ≤ '9'

/-- Test for the regex class `\s` (ASCII): space, tab, newline, carriage
return, vertical tab, form feed. -/
def isSpaceC (c : Char) : Bool :=
  c = ' ' || c = '\t' || c = '\n' || c = '\r' || c = Char.ofNat 11 || c = Char.ofNat 12

/-- Test for the regex class `\w` (ASCII). -/
def isWordC (c : Char) : Bool :=
  isDigitC c || ('a' ≤ c && c ≤ 'z') || ('A' ≤ c && c ≤ 'Z') || c = '_'

/-- ASCII lowercasing, for the IGNORECASE comparisons. -/
def lowerC (c : Char) : Char :=
  if 'A' ≤ c && c ≤ 'Z' then Char.ofNat (c.toNat + 32) else c

/-- Embedding of `str.strip()`: drop leading and trailing whitespace. -/
def stripChars (cs : List Char) : List Char :=
  ((cs.dropWhile isSpaceC).reverse.dropWhile isSpaceC).reverse

/-- The three capture groups of the date regex: day, month name, year. -/
structure DateGroups where
  day : List Char
  monthName : List Char
  year : List Char
deriving DecidableEq, Repr

/-- Embedding of `re.match` of the date pattern (line 37-41): prefix match
of the regex on the stripped input, returning the capture groups. -/
def locomoMatch (cs : List Char) : Option DateGroups :=
  let (hh, r1) := cs.span isDigitC
  if hh.length = 0 || 2 < hh.length then none else
  match r1 with
  | ':' :: r2 =>
    let (mm, r3) := r2.span isDigitC
    if mm.length ≠ 2 then none else
    let r4 := r3.dropWhile isSpaceC
    match r4 with
    | a :: m :: r5 =>
      if (lowerC a = 'a' || lowerC a = 'p') && lowerC m = 'm' then
        let (sp1, r6) := r5.span isSpaceC
        if sp1.length = 0 then none else
        match r6 with
        | o :: n :: r7 =>
          if lowerC o = 'o' && lowerC n = 'n' then
            let (sp2, r8) := r7.span isSpaceC
            if sp2.length = 0 then none else
            let (dd, r9) := r8.span isDigitC
            if dd.length = 0 || 2 < dd.length then none else
            let (sp3, r10) := r9.span isSpaceC
            if sp3.length = 0 then none else
            let (mon, r11) := r10.span isWordC
            if mon.length = 0 then none else
            let r12 := match r11 with
              | ',' :: t => t
              | t => t
            let (sp4, r13) := r12.span isSpaceC
            if sp4.length = 0 then none else
            let (yr, _) := r13.span isDigitC
            if yr.length < 4 then none else
            some { day := dd, monthName := mon, year := yr.take 4 }
          else none
        | _ => none
      else none
    | _ => none
  | _ => none

/-- Embedding of the `%B` directive of `strptime`: full English month
names, compared case-insensitively. -/
def monthFromName (mon : List Char) : Option Nat :=
  let s := String.mk (mon.map lowerC)
  if s = "january" then some 1
  else if s = "february" then some 2
  else if s = "march" then some 3
  else if s = "april" then some 4
  else if s = "may" then some 5
  else if s = "june" then some 6
  else if s = "july" then some 7
  else if s = "august" then some 8
  else if s = "september" then some 9
  else if s = "october" then some 10
  else if s = "november" then some 11
  else if s = "december" then some 12
  else none

/-- Decimal value of a digit string (groups are all-digit by
construction). -/
def digitsToNat (cs : List Char) : Nat :=
  cs.foldl (fun a c => a * 10 + (c.toNat - 48)) 0

def isLeapYear (y : Nat) : Bool :=
  (y % 4 == 0) && (y % 100 != 0 || y % 400 == 0)

def daysInMonth (y m : Nat) : Nat :=
  if m = 2 then (if isLeapYear y then 29 else 28)
  else if m = 4 || m = 6 || m = 9 || m = 11 then 30
  else 31

/-- Embedding of `datetime.strptime(f"{day} {month_name} {year}",
"%d %B %Y")`: the month name must be a full month name, the year at least
1 (`datetime.MINYEAR`), and the day valid for that month; otherwise
`ValueError`, modelled as `none`. -/
def strptimeDMY (dd mon yr : List Char) : Option (Nat × Nat × Nat) :=
  match monthFromName mon with
  | none => none
  | some m =>
      let d := digitsToNat dd
      let y := digitsToNat yr
      if 1 ≤ y && 1 ≤ d && d ≤ daysInMonth y m then some (y, m, d) else none

/-- One decimal digit character of `n` (units digit of `n / 10^k` is
selected by the caller). -/
def digitChar (n : Nat) : Char :=
  Char.ofNat (48 + n % 10)

/-- Fixed-width two-digit field of `strftime` (`%m`, `%d`); the program
only formats values below 100. -/
def pad2 (n : Nat) : String :=
  String.mk [digitChar (n / 10), digitChar n]

/-- Fixed-width four-digit field of `strftime` (`%Y`).  C libraries
differ on zero-padding years below 1000; the embedding follows the
zero-padded form of the Python format-code table.  The year group is
`\d{4}`, so matched years of 1000 and above — where every platform
agrees — are the realistic range. -/
def pad4 (n : Nat) : String :=
  String.mk [digitChar (n / 1000), digitChar (n / 100), digitChar (n / 10), digitChar n]

/-- Embedding of `dt.strftime("%Y-%m-%d")`. -/
def isoString (y m d : Nat) : String :=
  pad4 y ++ "-" ++ pad2 m ++ "-" ++ pad2 d

/-- Embedding of `normalize_locomo_date` (lines 29-50). -/
def normalize_locomo_date (s : String) : String :=
  match locomoMatch (stripChars s.toList) with
  | none => s
  | some g =>
      match strptimeDMY g.day g.monthName g.year with
      | none => s
      | some (y, m, d) => isoString y m d

/-- Shape test for ISO `YYYY-MM-DD` strings. -/
def isIsoShape (s : String) : Bool :=
  let cs := s.toList
  (cs.length == 10) && (cs.getD 4 ' ' == '-') && (cs.getD 7 ' ' == '-')
  && (cs.take 4).all isDigitC && ((cs.drop 5).take 2).all isDigitC
  && (cs.drop 8).all isDigitC

/-! Session normalization and session-key ordering (`ingest_sample`,
lines 71-109). -/

/-- Embedding of the synthesized date header record (lines 89-92). -/
def headerRecord (date_str : String) : Exchange :=
  { user := "[Conversation date: " ++ date_str ++ "]", assistant := "(acknowledged)" }

/-- Per-session record sequence (line 93): the header record followed by
the paired turns.  `date_time` is the session's `_date_time` value,
`none` when the key is missing, in which case `conv.get` supplies the
`"unknown date"` default (line 85). -/
def sessionTurnsOut (date_time : Option String) (ts : List Turn) : List Exchange :=
  headerRecord (date_time.getD "unknown date") :: pair_turns ts

/-- Leading-run test on character lists, embedding `str.startswith`. -/
def beginsWithList : List Char → List Char → Bool
  | _, [] => true
  | [], _ :: _ => false
  | h :: hs, s :: ss => (h == s) && beginsWithList hs ss

/-- Substring occurrence on character lists, embedding Python's
`sub in hay`. -/
def occursIn (sub : List Char) : List Char → Bool
  | [] => sub.isEmpty
  | c :: rest => beginsWithList (c :: rest) sub || occursIn sub rest

/-- Embedding of `"date_time" not in k` negated: `sub in hay`. -/
def pyInStr (sub hay : String) : Bool :=
  occursIn sub.toList hay.toList

/-- The key filter of line 77: `k.startswith("session_") and "date_time"
not in k`. -/
def isSessionKey (k : String) : Bool :=
  beginsWithList k.toList "session_".toList && !(pyInStr "date_time" k)

/-- Embedding of Python's `str.split(sep)` for a one-character separator:
maximal runs between separator occurrences, keeping empty components. -/
def splitOnChar (sep : Char) : List Char → List (List Char)
  | [] => [[]]
  | c :: rest =>
      match splitOnChar sep rest with
      | [] => [[c]]
      | g :: gs => if c = sep then [] :: g :: gs else (c :: g) :: gs

/-- The sort key of line 78, `int(x.split("_")[1])`.  `int()` raises on a
non-numeric component; the keys in scope have the form `session_<N>`
whose second component is all digits, so the non-digit fallback is never
exercised. -/
def sessionIndex (k : String) : Nat :=
  let comp := (splitOnChar '_' k.toList).getD 1 []
  if comp ≠ [] && comp.all isDigitC then digitsToNat comp else 0

/-- Embedding of lines 76-79: filter the turn-bearing session keys and
sort them ascending by embedded numeric index.  Python's `sorted` is a
stable ascending sort by key; stable insertion sort is extensionally the
same function (any two stable sorts agree). -/
def sessionKeys (keys : List String) : List String :=
  (keys.filter isSessionKey).insertionSort
    (fun a b => sessionIndex a ≤ sessionIndex b)

/-- Value of one conversation key: an array of speaker turns for
`session_<N>` keys, a date-label string for `_date_time` keys (spec §6
corpus format). -/
inductive ConvVal where
  | turnList (ts : List Turn)
  | dateLabel (s : String)
deriving DecidableEq, Repr

/-- A conversation object: keys with values, in declaration order. -/
abbrev Conv := List (String × ConvVal)

def convKeys (conv : Conv) : List String :=
  conv.map (fun e => e.1)

def convLookup (conv : Conv) (k : String) : Option ConvVal :=
  (conv.find? (fun e => e.1 == k)).map (fun e => e.2)

/-- Embedding of `conv.get(f"{sk}_date_time", ...)` (line 85); `_date_time`
keys are string-valued per the corpus format. -/
def convDateLabel (conv : Conv) (sk : String) : Option String :=
  match convLookup conv (sk ++ "_date_time") with
  | some (ConvVal.dateLabel s) => some s
  | _ => none

/-- Embedding of `conv[sk]` (line 87); `sk` is drawn from the key set and
is list-valued per the corpus format. -/
def convTurns (conv : Conv) (sk : String) : List Turn :=
  match convLookup conv sk with
  | some (ConvVal.turnList ts) => ts
  | _ => []

/-- Embedding of `sk.split("_")[1]` (line 83). -/
def sessionNumStr (sk : String) : String :=
  String.mk ((splitOnChar '_' sk.toList).getD 1 [])

/-! SHA-1 and UUIDv5 (`sample_id_to_uuid`, lines 25-26).

`uuid.uuid5(namespace, name)` hashes the namespace bytes followed by the
UTF-8 bytes of the name with SHA-1, keeps the first 16 digest bytes, sets
the version nibble to 5 and the variant bits to `10`, and renders the
result as 32 lowercase hexadecimal digits in 8-4-4-4-12 hyphenated
grouping.  SHA-1 is embedded in full; 32-bit words are `Nat` reduced
modulo `2^32`. -/

/-- Rotate a 32-bit word (value below `2^32`) left by `s` bits. -/
def rotl (s n : Nat) : Nat :=
  ((n <<< s) ||| (n >>> (32 - s))) % 4294967296

/-- SHA-1 padding: `0x80`, zeros to 56 mod 64, then the 64-bit big-endian
bit length. -/
def padMessage (msg : List Nat) : List Nat :=
  let bitLen := 8 * msg.length
  let padZeros := (120 - (msg.length + 1) % 64) % 64
  msg ++ [128] ++ List.replicate padZeros 0
    ++ [(bitLen >>> 56) &&& 255, (bitLen >>> 48) &&& 255, (bitLen >>> 40) &&& 255,
        (bitLen >>> 32) &&& 255, (bitLen >>> 24) &&& 255, (bitLen >>> 16) &&& 255,
        (bitLen >>> 8) &&& 255, bitLen &&& 255]

/-- Big-endian 4-byte groups to 32-bit words. -/
def bytesToWords : List Nat → List Nat
  | b0 :: b1 :: b2 :: b3 :: rest =>
      ((b0 <<< 24) ||| (b1 <<< 16) ||| (b2 <<< 8) ||| b3) :: bytesToWords rest
  | _ => []

/-- Split a word list into 16-word blocks (padded messages are always a
multiple of 16 words, so the short-leftover case is never reached). -/
def chunk16 : List Nat → List (List Nat)
  | [] => []
  | w0 :: w1 :: w2 :: w3 :: w4 :: w5 :: w6 :: w7
      :: w8 :: w9 :: w10 :: w11 :: w12 :: w13 :: w14 :: w15 :: rest =>
      [w0, w1, w2, w3, w4, w5, w6, w7, w8, w9, w10, w11, w12, w13, w14, w15]
        :: chunk16 rest
  | ws => [ws]

/-- Message-schedule expansion, most recent word first: prepend
`rotl 1 (w3 ^^^ w8 ^^^ w14 ^^^ w16)` the given number of times. -/
def expandRev (rws : List Nat) : Nat → List Nat
  | 0 => rws
  | k + 1 =>
      expandRev
        ((rotl 1 ((rws.getD 2 0) ^^^ (rws.getD 7 0) ^^^ (rws.getD 13 0) ^^^ (rws.getD 15 0)))
          :: rws) k

structure Sha1State where
  a : Nat
  b : Nat
  c : Nat
  d : Nat
  e : Nat
deriving DecidableEq, Repr

def sha1Init : Sha1State :=
  { a := 1732584193, b := 4023233417, c := 2562383102, d := 271733878, e := 3285377520 }

/-- Round function: `Ch`, `Parity`, `Maj`, `Parity` for the four 20-round
groups; `~b` on a 32-bit word is `b ^^^ (2^32 - 1)`. -/
def sha1F (i b c d : Nat) : Nat :=
  if i < 20 then (b &&& c) ||| ((b ^^^ 4294967295) &&& d)
  else if i < 40 then b ^^^ c ^^^ d
  else if i < 60 then (b &&& c) ||| (b &&& d) ||| (c &&& d)
  else b ^^^ c ^^^ d

def sha1K (i : Nat) : Nat :=
  if i < 20 then 1518500249
  else if i < 40 then 1859775393
  else if i < 60 then 2400959708
  else 3395469782

def sha1Rounds (st : Sha1State) (i : Nat) : List Nat → Sha1State
  | [] => st
  | w :: ws =>
      let t := (rotl 5 st.a + sha1F i st.b st.c st.d + st.e + sha1K i + w) % 4294967296
      sha1Rounds { a := t, b := st.a, c := rotl 30 st.b, d := st.c, e := st.d } (i + 1) ws

def sha1Block (st : Sha1State) (block16 : List Nat) : Sha1State :=
  let ws := (expandRev block16.reverse 64).reverse
  let r := sha1Rounds st 0 ws
  { a := (st.a + r.a) % 4294967296, b := (st.b + r.b) % 4294967296,
    c := (st.c + r.c) % 4294967296, d := (st.d + r.d) % 4294967296,
    e := (st.e + r.e) % 4294967296 }

/-- Big-endian bytes of a 32-bit word. -/
def wordBytes (w : Nat) : List Nat :=
  [(w >>> 24) &&& 255, (w >>> 16) &&& 255, (w >>> 8) &&& 255, w &&& 255]

/-- Final SHA-1 state after processing all blocks of the padded
message. -/
def sha1Words (msg : List Nat) : Sha1State :=
  (chunk16 (bytesToWords (padMessage msg))).foldl sha1Block sha1Init

/-- SHA-1 digest (20 bytes) of a byte list. -/
def sha1 (msg : List Nat) : List Nat :=
  let st := sha1Words msg
  wordBytes st.a ++ wordBytes st.b ++ wordBytes st.c ++ wordBytes st.d ++ wordBytes st.e

/-- UTF-8 encoding of one code point. -/
def utf8Char (c : Nat) : List Nat :=
  if c < 128 then [c]
  else if c < 2048 then [192 ||| (c >>> 6), 128 ||| (c &&& 63)]
  else if c < 65536 then
    [224 ||| (c >>> 12), 128 ||| ((c >>> 6) &&& 63), 128 ||| (c &&& 63)]
  else
    [240 ||| (c >>> 18), 128 ||| ((c >>> 12) &&& 63), 128 ||| ((c >>> 6) &&& 63),
     128 ||| (c &&& 63)]

/-- UTF-8 bytes of a string, embedding `name.encode("utf-8")`. -/
def strBytes (s : String) : List Nat :=
  (s.data.map (fun c => utf8Char c.toNat)).flatten

/-- The bytes of `uuid.NAMESPACE_DNS`,
`6ba7b810-9dad-11d1-80b4-00c04fd430c8`. -/
def NAMESPACE_DNS : List Nat :=
  [107, 167, 184, 16, 157, 173, 17, 209, 128, 180, 0, 192, 79, 212, 48, 200]

/-- First 16 SHA-1 bytes of namespace ++ name with the version nibble set
to 5 and the variant bits set to `10`. -/
def uuid5Bytes (ns nameBytes : List Nat) : List Nat :=
  let d := (sha1 (ns ++ nameBytes)).take 16
  d.take 6 ++ [((d.getD 6 0) &&& 15) ||| 80] ++ [d.getD 7 0]
    ++ [((d.getD 8 0) &&& 63) ||| 128] ++ d.drop 9

/-- Lowercase hexadecimal digit of `n % 16`. -/
def hexChar (n : Nat) : Char :=
  if n % 16 < 10 then Char.ofNat (48 + n % 16) else Char.ofNat (87 + n % 16)

def byteHexChars (b : Nat) : List Char :=
  [hexChar (b / 16), hexChar b]

/-- Canonical hyphenated rendering (8-4-4-4-12) of 16 bytes. -/
def uuidString (bytes : List Nat) : String :=
  let hx := (bytes.map byteHexChars).flatten
  String.mk (hx.take 8 ++ '-' :: ((hx.drop 8).take 4) ++ '-' :: ((hx.drop 12).take 4)
    ++ '-' :: ((hx.drop 16).take 4) ++ '-' :: hx.drop 20)

/-- Embedding of `uuid.uuid5(namespace, name)` rendered with `str(...)`. -/
def uuid5 (ns : List Nat) (name : String) : String :=
  uuidString (uuid5Bytes ns (strBytes name))

/-- Embedding of `sample_id_to_uuid` (lines 25-26). -/
def sample_id_to_uuid (sample_id : String) : String :=
  uuid5 NAMESPACE_DNS ("locomo." ++ sample_id)

/-- Lowercase hexadecimal digit test. -/
def isHexC (c : Char) : Bool :=
  ('0' ≤ c && c ≤ '9') || ('a' ≤ c && c ≤ 'f')

/-- Standard hyphenated hexadecimal UUID form: 36 characters, hyphens at
positions 8, 13, 18, 23, lowercase hex digits elsewhere (32 digits = 128
bits). -/
def isUuidFormat (s : String) : Bool :=
  let cs := s.data
  (cs.length == 36) && (cs.getD 8 ' ' == '-') && (cs.getD 13 ' ' == '-')
  && (cs.getD 18 ' ' == '-') && (cs.getD 23 ' ' == '-')
  && (cs.take 8).all isHexC && ((cs.drop 9).take 4).all isHexC
  && ((cs.drop 14).take 4).all isHexC && ((cs.drop 19).take 4).all isHexC
  && (cs.drop 24).all isHexC

/-! Payloads and the sequential driver (lines 71-109 and 161-171). -/

/-- The JSON body built at lines 95-100. -/
structure Payload where
  agent_id : String
  conversation_id : String
  turns : List Exchange
  session_date : String
deriving DecidableEq, Repr

/-- Keys of the payload dict, in construction order (lines 95-100). -/
def payloadKeys : List String :=
  ["agent_id", "conversation_id", "turns", "session_date"]

/-- The payload of one session (lines 83-100). -/
def sessionPayload (sample_id : String) (conv : Conv) (sk : String) : Payload :=
  let date_str := (convDateLabel conv sk).getD "unknown date"
  { agent_id := sample_id_to_uuid sample_id
    conversation_id := sample_id ++ "_session_" ++ sessionNumStr sk
    turns := sessionTurnsOut (convDateLabel conv sk) (convTurns conv sk)
    session_date := normalize_locomo_date date_str }

/-- One outbound POST request. -/
structure Request where
  url : String
  body : Payload
deriving DecidableEq, Repr

/-- The request issued for one session (line 102). -/
def sessionRequest (base_url sample_id : String) (conv : Conv) (sk : String) : Request :=
  { url := base_url ++ "/memory/ingest", body := sessionPayload sample_id conv sk }

/-- The ordered requests of one sample: one per session key. -/
def ingest_sample_requests (base_url sample_id : String) (conv : Conv) : List Request :=
  (sessionKeys (convKeys conv)).map (sessionRequest base_url sample_id conv)

/-- Outcome of one `client.post` call: a transport failure (raised by
`httpx`) or a response with an HTTP status and a `turns_ingested` count
(`result.get("turns_ingested", 0)` defaults a missing count to 0). -/
inductive PostOutcome where
  | transportError
  | response (status : Nat) (turns_ingested : Nat)

/-- Whether the call survives `resp.raise_for_status()`: a response with a
2xx status. -/
def postOk : PostOutcome → Bool
  | PostOutcome.transportError => false
  | PostOutcome.response st _ => decide (200 ≤ st ∧ st < 300)

def ingestedCount : PostOutcome → Nat
  | PostOutcome.transportError => 0
  | PostOutcome.response _ n => n

/-- The session loop of `ingest_sample` (lines 82-107) run against an HTTP
oracle: requests are issued in order; the first transport failure or
non-2xx status raises (modelled as `Except.error`), issuing nothing
further; otherwise the `turns_ingested` counts are summed. Returns the
requests actually issued together with the outcome. -/
def runSessions (oracle : Request → PostOutcome) :
    List Request → List Request × Except Unit Nat
  | [] => ([], Except.ok 0)
  | r :: rest =>
      if postOk (oracle r) then
        match runSessions oracle rest with
        | (tr, Except.ok n) => (r :: tr, Except.ok (ingestedCount (oracle r) + n))
        | (tr, Except.error e) => (r :: tr, Except.error e)
      else ([r], Except.error ())

/-- One corpus sample: `sample_id` and its conversation object. -/
structure SampleRec where
  sample_id : String
  conversation : Conv

def sampleRequests (base_url : String) (s : SampleRec) : List Request :=
  ingest_sample_requests base_url s.sample_id s.conversation

/-- The sample loop of `main` (lines 161-171): samples are processed in
order and an uncaught exception from any session ends the run. -/
def ingestRun (oracle : Request → PostOutcome) (base_url : String) :
    List SampleRec → List Request × Except Unit Nat
  | [] => ([], Except.ok 0)
  | s :: rest =>
      match runSessions oracle (sampleRequests base_url s) with
      | (tr, Except.error e) => (tr, Except.error e)
      | (tr, Except.ok n) =>
          match ingestRun oracle base_url rest with
          | (tr2, Except.ok n2) => (tr ++ tr2, Except.ok (n + n2))
          | (tr2, Except.error e) => (tr ++ tr2, Except.error e)

/-- Python slicing `xs[:n]` for an `int` bound: nonnegative bounds take a
prefix, negative bounds drop that many elements from the end, both
clamped. -/
def pyTrunc {α : Type} (xs : List α) (n : Int) : List α :=
  if 0 ≤ n then xs.take n.toNat else xs.take (xs.length - (-n).toNat)

/-- Embedding of lines 144-145: `if args.samples: samples =
samples[:args.samples]`.  The cap is `None` when the flag is absent; the
slice is applied only when the value is truthy (non-`None` and
non-zero). -/
def applyCap {α : Type} (cap : Option Int) (xs : List α) : List α :=
  match cap with
  | none => xs
  | some n => if n ≠ 0 then pyTrunc xs n else xs

/-- A small concrete conversation used by concrete instantiations. -/
def demoConv : Conv :=
  [("session_1", ConvVal.turnList [{ speaker := "A", text := "hi" }]),
   ("session_1_date_time", ConvVal.dateLabel "1:56 pm on 8 May, 2023")]

/-- A concrete request used by the C7 witness. -/
def demoRequest : Request :=
  { url := "u"
    body := { agent_id := "a", conversation_id := "c", turns := [], session_date := "s" } }

/-! Claim theorems. -/

theorem pair_turns_length : ∀ ts : List Turn,
    (pair_turns ts).length = (ts.length + 1) / 2
  | [] => by simp [pair_turns]
  | [_] => by simp [pair_turns]
  | _ :: _ :: rest => by
      have ih := pair_turns_length rest
      simp only [pair_turns, List.length_cons, ih]
      omega

theorem exchangeFields_pair_turns : ∀ ts : List Turn,
    exchangeFields (pair_turns ts)
      = ts.map fmtTurn ++ (if ts.length % 2 = 1 then ["(no response)"] else [])
  | [] => rfl
  | [_] => rfl
  | t0 :: t1 :: rest => by
      have ih := exchangeFields_pair_turns rest
      have hmod : (rest.length + 1 + 1) % 2 = rest.length % 2 := by omega
      simp only [pair_turns, exchangeFields, List.map_cons, List.length_cons,
        List.cons_append, hmod, ih]

theorem pair_turns_get : ∀ (ts : List Turn) (k : Nat) (a b : Turn),
    ts[2 * k]? = some a → ts[2 * k + 1]? = some b →
    (pair_turns ts)[k]? = some { user := fmtTurn a, assistant := fmtTurn b }
  | [], _, _, _ => by simp
  | [t], k, a, b => by
      intro _ h2
      rw [List.getElem?_eq_none (by simp)] at h2
      exact absurd h2 (by simp)
  | t0 :: t1 :: rest, 0, a, b => by
      intro h1 h2
      simp only [Nat.mul_zero, Nat.zero_add, List.getElem?_cons_zero,
        List.getElem?_cons_succ, Option.some.injEq] at h1 h2
      subst h1; subst h2
      simp [pair_turns]
  | t0 :: t1 :: rest, k + 1, a, b => by
      intro h1 h2
      have e1 : 2 * (k + 1) = 2 * k + 1 + 1 := by omega
      have e2 : 2 * (k + 1) + 1 = 2 * k + 1 + 1 + 1 := by omega
      rw [e1, List.getElem?_cons_succ, List.getElem?_cons_succ] at h1
      rw [e2, List.getElem?_cons_succ, List.getElem?_cons_succ] at h2
      have ih := pair_turns_get rest k a b h1 h2
      simpa only [pair_turns, List.getElem?_cons_succ] using ih

/-- C1: `pair_turns` on `n` turns yields exactly `⌈n/2⌉` records, record
`k` pairs turns `2k` and `2k+1` in order, and the interleaved
`user`/`assistant` fields are precisely the formatted turns in original
order (plus the final placeholder when `n` is odd): no reordering,
omission or duplication. -/
theorem pair_turns_pairing_complete (ts : List Turn) :
    (pair_turns ts).length = (ts.length + 1) / 2
    ∧ (∀ k a b, ts[2 * k]? = some a → ts[2 * k + 1]? = some b →
        (pair_turns ts)[k]? = some { user := fmtTurn a, assistant := fmtTurn b })
    ∧ exchangeFields (pair_turns ts)
        = ts.map fmtTurn ++ (if ts.length % 2 = 1 then ["(no response)"] else []) :=
  ⟨pair_turns_length ts, fun k a b h1 h2 => pair_turns_get ts k a b h1 h2,
    exchangeFields_pair_turns ts⟩

/-- Witness for C1 at the spec §8 example turns. -/
theorem pair_turns_pairing_complete_witness :
    (pair_turns [⟨"A", "hi"⟩, ⟨"B", "hello"⟩, ⟨"A", "bye"⟩])[0]?
      = some { user := "A: hi", assistant := "B: hello" } :=
  (pair_turns_pairing_complete [⟨"A", "hi"⟩, ⟨"B", "hello"⟩, ⟨"A", "bye"⟩]).2.1
    0 ⟨"A", "hi"⟩ ⟨"B", "hello"⟩ (by decide) (by decide)

theorem pair_turns_odd_last : ∀ ts : List Turn, ts.length % 2 = 1 →
    (pair_turns ts).getLast?
      = ts.getLast?.map (fun t => { user := fmtTurn t, assistant := "(no response)" })
  | [], h => by simp at h
  | [_], _ => rfl
  | t0 :: t1 :: rest, h => by
      have h' : rest.length % 2 = 1 := by
        simp only [List.length_cons] at h; omega
      have ih := pair_turns_odd_last rest h'
      have hne : rest ≠ [] := by
        intro hnil; rw [hnil] at h'; simp at h'
      obtain ⟨r, rs, hrw⟩ := List.exists_cons_of_ne_nil hne
      subst hrw
      have h2 : pair_turns (t0 :: t1 :: r :: rs)
          = { user := fmtTurn t0, assistant := fmtTurn t1 } :: pair_turns (r :: rs) := rfl
      have h3 : pair_turns (r :: rs) ≠ [] := by
        intro hnil
        have := pair_turns_length (r :: rs)
        rw [hnil] at this
        simp only [List.length_nil, List.length_cons] at this
        omega
      obtain ⟨p, ps, hpw⟩ := List.exists_cons_of_ne_nil h3
      rw [h2, hpw, List.getLast?_cons_cons, ← hpw, ih,
        List.getLast?_cons_cons, List.getLast?_cons_cons]

theorem pair_turns_mid_assistant : ∀ (ts : List Turn) (k : Nat) (e : Exchange),
    (pair_turns ts)[k]? = some e → k + 1 < (pair_turns ts).length →
    ∃ b, ts[2 * k + 1]? = some b ∧ e.assistant = fmtTurn b
  | [], _, _ => by simp [pair_turns]
  | [t], k, e => by
      intro _ hlt
      exact absurd hlt (by simp [pair_turns])
  | t0 :: t1 :: rest, 0, e => by
      intro h _
      simp only [pair_turns, List.getElem?_cons_zero, Option.some.injEq] at h
      exact ⟨t1, by simp, by rw [← h]⟩
  | t0 :: t1 :: rest, k + 1, e => by
      intro h hlt
      simp only [pair_turns, List.getElem?_cons_succ] at h
      simp only [pair_turns, List.length_cons] at hlt
      obtain ⟨b, hb, he⟩ := pair_turns_mid_assistant rest k e h (by omega)
      refine ⟨b, ?_, he⟩
      have e2 : 2 * (k + 1) + 1 = 2 * k + 1 + 1 + 1 := by omega
      rw [e2, List.getElem?_cons_succ, List.getElem?_cons_succ]
      exact hb

/-- C2: on an odd-length turn list the last record carries the final turn
as `user` and exactly the `"(no response)"` placeholder as `assistant`;
every non-last record's `assistant` is the formatted paired turn, so it can
only equal the placeholder if that formatted turn does. -/
theorem pair_turns_odd_placeholder (ts : List Turn) (h : ts.length % 2 = 1) :
    (∀ t, ts.getLast? = some t →
        (pair_turns ts).getLast?
          = some { user := fmtTurn t, assistant := "(no response)" })
    ∧ (∀ k e, (pair_turns ts)[k]? = some e → k + 1 < (pair_turns ts).length →
        ∃ b, ts[2 * k + 1]? = some b ∧ e.assistant = fmtTurn b) := by
  constructor
  · intro t ht
    rw [pair_turns_odd_last ts h, ht]
    rfl
  · exact fun k e he hk => pair_turns_mid_assistant ts k e he hk

/-- Witness for C2 at the spec §8 example turns. -/
theorem pair_turns_odd_placeholder_witness :
    (pair_turns [⟨"A", "hi"⟩, ⟨"B", "hello"⟩, ⟨"A", "bye"⟩]).getLast?
      = some { user := "A: bye", assistant := "(no response)" } :=
  (pair_turns_odd_placeholder [⟨"A", "hi"⟩, ⟨"B", "hello"⟩, ⟨"A", "bye"⟩]
    (by decide)).1 ⟨"A", "bye"⟩ (by decide)

theorem isDigitC_digitChar (n : Nat) : isDigitC (digitChar n) = true := by
  have h : ∀ k, k < 10 → isDigitC (Char.ofNat (48 + k)) = true := by decide
  exact h (n % 10) (Nat.mod_lt _ (by omega))

theorem isoString_shape (y m d : Nat) : isIsoShape (isoString y m d) = true := by
  have h : (isoString y m d).data
      = [digitChar (y / 1000), digitChar (y / 100), digitChar (y / 10), digitChar y,
         '-', digitChar (m / 10), digitChar m, '-', digitChar (d / 10), digitChar d] := by
    simp [isoString, pad4, pad2]
  simp [isIsoShape, String.toList, String.length, h, isDigitC_digitChar]

/-- C3: every session's record sequence begins with exactly one
synthesized header record whose `user` is `[Conversation date: <label>]`
with the raw label verbatim and whose `assistant` is `(acknowledged)`,
followed by the Turn Pairer's output; a missing label is replaced by the
literal `"unknown date"`, on which normalization succeeds by returning it
unchanged. -/
theorem session_header_first (dt : Option String) (ts : List Turn) :
    (sessionTurnsOut dt ts)[0]? = some (headerRecord (dt.getD "unknown date"))
    ∧ (headerRecord (dt.getD "unknown date")).user
        = "[Conversation date: " ++ dt.getD "unknown date" ++ "]"
    ∧ (headerRecord (dt.getD "unknown date")).assistant = "(acknowledged)"
    ∧ (sessionTurnsOut dt ts).tail = pair_turns ts
    ∧ (dt = none → dt.getD "unknown date" = "unknown date"
        ∧ normalize_locomo_date "unknown date" = "unknown date") := by
  refine ⟨by simp [sessionTurnsOut], rfl, rfl, rfl, ?_⟩
  intro h
  subst h
  exact ⟨rfl, by decide⟩

/-- Witness for C3 at a session with no date label. -/
theorem session_header_first_witness :
    (sessionTurnsOut none [])[0]? = some (headerRecord "unknown date")
    ∧ normalize_locomo_date "unknown date" = "unknown date" :=
  ⟨(session_header_first none []).1, ((session_header_first none []).2.2.2.2 rfl).2⟩

theorem mem_pair_turns : ∀ (ts : List Turn) (e : Exchange), e ∈ pair_turns ts →
    (∃ t ∈ ts, e.user = fmtTurn t)
    ∧ (e.assistant = "(no response)" ∨ ∃ t ∈ ts, e.assistant = fmtTurn t)
  | [], e => by simp [pair_turns]
  | [t], e => by
      intro he
      simp only [pair_turns, List.mem_singleton] at he
      subst he
      exact ⟨⟨t, by simp, rfl⟩, Or.inl rfl⟩
  | t0 :: t1 :: rest, e => by
      intro he
      simp only [pair_turns, List.mem_cons] at he
      rcases he with he | he
      · subst he
        exact ⟨⟨t0, by simp, rfl⟩, Or.inr ⟨t1, by simp, rfl⟩⟩
      · obtain ⟨⟨t, ht, hu⟩, ha⟩ := mem_pair_turns rest e he
        refine ⟨⟨t, by simp [ht], hu⟩, ?_⟩
        rcases ha with ha | ⟨t', ht', ha⟩
        · exact Or.inl ha
        · exact Or.inr ⟨t', by simp [ht'], ha⟩

theorem fmtTurn_ne_empty (t : Turn) : fmtTurn t ≠ "" := by
  intro h
  have hl := congrArg String.length h
  have h2 : (": " : String).length = 2 := rfl
  simp only [fmtTurn, String.length_append, h2] at hl
  simp at hl

theorem headerRecord_user_ne_empty (d : String) : (headerRecord d).user ≠ "" := by
  intro h
  have hl := congrArg String.length h
  have h2 : ("[Conversation date: " : String).length = 20 := rfl
  have h3 : ("]" : String).length = 1 := rfl
  simp only [headerRecord, String.length_append, h2, h3] at hl
  simp at hl

/-- C8: every record of a session — the synthesized header and every
paired record — has a non-empty `user`, even when a turn's speaker and
text are both empty; the `assistant` is a sentinel placeholder or a
formatted turn of the session. -/
theorem session_records_invariant (dt : Option String) (ts : List Turn) (r : Exchange)
    (h : r ∈ sessionTurnsOut dt ts) :
    r.user ≠ ""
    ∧ (r.assistant = "(acknowledged)" ∨ r.assistant = "(no response)"
        ∨ ∃ t ∈ ts, r.assistant = fmtTurn t) := by
  rw [sessionTurnsOut, List.mem_cons] at h
  rcases h with h | h
  · subst h
    exact ⟨headerRecord_user_ne_empty _, Or.inl rfl⟩
  · obtain ⟨⟨t, ht, hu⟩, ha⟩ := mem_pair_turns ts r h
    refine ⟨by rw [hu]; exact fmtTurn_ne_empty t, ?_⟩
    rcases ha with ha | ⟨t', ht', ha⟩
    · exact Or.inr (Or.inl ha)
    · exact Or.inr (Or.inr ⟨t', ht', ha⟩)

/-- Witness for C8 at a record with an empty speaker and empty text. -/
theorem session_records_invariant_witness :
    ({ user := ": ", assistant := "(no response)" } : Exchange).user ≠ "" :=
  (session_records_invariant (some "8 May, 2023") [{ speaker := "", text := "" }]
    { user := ": ", assistant := "(no response)" }
    (by simp [sessionTurnsOut, pair_turns, fmtTurn])).1

/-- C4: the turn-bearing `session_<N>` keys (the `_date_time` companions
excluded) are processed in ascending numeric order of `N`: the selected
keys are a permutation of the `isSessionKey` filter, sorted by
`sessionIndex`; in particular `session_2, session_10, session_1` with
their companions produce `session_1, session_2, session_10`. -/
theorem session_keys_numeric_order :
    sessionKeys ["session_2", "session_2_date_time", "session_10",
        "session_10_date_time", "session_1", "session_1_date_time"]
      = ["session_1", "session_2", "session_10"]
    ∧ (∀ keys : List String,
        List.Sorted (fun a b => sessionIndex a ≤ sessionIndex b) (sessionKeys keys))
    ∧ (∀ keys : List String, (sessionKeys keys).Perm (keys.filter isSessionKey)) := by
  refine ⟨by decide, ?_, ?_⟩
  · intro keys
    haveI : IsTotal String (fun a b => sessionIndex a ≤ sessionIndex b) :=
      ⟨fun a b => Nat.le_total _ _⟩
    haveI : IsTrans String (fun a b => sessionIndex a ≤ sessionIndex b) :=
      ⟨fun _ _ _ hab hbc => Nat.le_trans hab hbc⟩
    exact List.sorted_insertionSort _ _
  · intro keys
    exact List.perm_insertionSort _ _

theorem hexChar_hex (n : Nat) : isHexC (hexChar n) = true := by
  have h : ∀ k, k < 16 →
      isHexC (if k < 10 then Char.ofNat (48 + k) else Char.ofNat (87 + k)) = true := by
    decide
  have := h (n % 16) (Nat.mod_lt _ (by omega))
  simpa [hexChar] using this

theorem version_char (x : Nat) : hexChar ((((x &&& 255) &&& 15) ||| 80) / 16) = '5' := by
  have h : ∀ a, a < 16 → hexChar ((a ||| 80) / 16) = '5' := by decide
  exact h ((x &&& 255) &&& 15) (Nat.lt_succ_of_le Nat.and_le_right)

theorem uuid5Bytes_eq (ns nb : List Nat) :
    uuid5Bytes ns nb
      = [((sha1Words (ns ++ nb)).a >>> 24) &&& 255, ((sha1Words (ns ++ nb)).a >>> 16) &&& 255,
         ((sha1Words (ns ++ nb)).a >>> 8) &&& 255, (sha1Words (ns ++ nb)).a &&& 255,
         ((sha1Words (ns ++ nb)).b >>> 24) &&& 255, ((sha1Words (ns ++ nb)).b >>> 16) &&& 255,
         ((((sha1Words (ns ++ nb)).b >>> 8) &&& 255) &&& 15) ||| 80,
         (sha1Words (ns ++ nb)).b &&& 255,
         ((((sha1Words (ns ++ nb)).c >>> 24) &&& 255) &&& 63) ||| 128,
         ((sha1Words (ns ++ nb)).c >>> 16) &&& 255, ((sha1Words (ns ++ nb)).c >>> 8) &&& 255,
         (sha1Words (ns ++ nb)).c &&& 255,
         ((sha1Words (ns ++ nb)).d >>> 24) &&& 255, ((sha1Words (ns ++ nb)).d >>> 16) &&& 255,
         ((sha1Words (ns ++ nb)).d >>> 8) &&& 255, (sha1Words (ns ++ nb)).d &&& 255] := rfl

theorem uuidString_data16 (y0 y1 y2 y3 y4 y5 y6 y7 y8 y9 y10 y11 y12 y13 y14 y15 : Nat) :
    (uuidString [y0, y1, y2, y3, y4, y5, y6, y7, y8, y9, y10, y11, y12, y13, y14, y15]).data
      = [hexChar (y0 / 16), hexChar y0, hexChar (y1 / 16), hexChar y1,
         hexChar (y2 / 16), hexChar y2, hexChar (y3 / 16), hexChar y3, '-',
         hexChar (y4 / 16), hexChar y4, hexChar (y5 / 16), hexChar y5, '-',
         hexChar (y6 / 16), hexChar y6, hexChar (y7 / 16), hexChar y7, '-',
         hexChar (y8 / 16), hexChar y8, hexChar (y9 / 16), hexChar y9, '-',
         hexChar (y10 / 16), hexChar y10, hexChar (y11 / 16), hexChar y11,
         hexChar (y12 / 16), hexChar y12, hexChar (y13 / 16), hexChar y13,
         hexChar (y14 / 16), hexChar y14, hexChar (y15 / 16), hexChar y15] := rfl

theorem uuidString_format16 (y0 y1 y2 y3 y4 y5 y6 y7 y8 y9 y10 y11 y12 y13 y14 y15 : Nat) :
    isUuidFormat (uuidString [y0, y1, y2, y3, y4, y5, y6, y7, y8, y9, y10, y11,
      y12, y13, y14, y15]) = true := by
  simp [isUuidFormat, uuidString_data16, hexChar_hex]

/-- C5: `sample_id_to_uuid` is a pure deterministic function of the sample
key whose derivation input is the string `"locomo." ++ sample_key` hashed
against the fixed DNS namespace, and whose output is a 128-bit identifier
in standard hyphenated hexadecimal form with the name-based version
nibble 5 at position 14. -/
theorem sample_id_to_uuid_spec (s : String) :
    sample_id_to_uuid s = uuid5 NAMESPACE_DNS ("locomo." ++ s)
    ∧ (∀ t : String, s = t → sample_id_to_uuid s = sample_id_to_uuid t)
    ∧ isUuidFormat (sample_id_to_uuid s) = true
    ∧ (sample_id_to_uuid s).data.getD 14 ' ' = '5' := by
  refine ⟨rfl, fun t h => by rw [h], ?_, ?_⟩
  · show isUuidFormat (uuidString (uuid5Bytes NAMESPACE_DNS (strBytes ("locomo." ++ s)))) = true
    rw [uuid5Bytes_eq]
    exact uuidString_format16 _ _ _ _ _ _ _ _ _ _ _ _ _ _ _ _
  · show (uuidString (uuid5Bytes NAMESPACE_DNS (strBytes ("locomo." ++ s)))).data.getD 14 ' '
      = '5'
    rw [uuid5Bytes_eq, uuidString_data16]
    exact version_char _

set_option maxRecDepth 100000 in
/-- Witness for C5 at a concrete sample key, with the digest checked
against the reference value of `uuid.uuid5(uuid.NAMESPACE_DNS,
"locomo.conv-1")`; hashing the bare key gives a different identifier. -/
theorem sample_id_to_uuid_spec_witness :
    sample_id_to_uuid "conv-1" = sample_id_to_uuid "conv-1"
    ∧ isUuidFormat (sample_id_to_uuid "conv-1") = true
    ∧ sample_id_to_uuid "conv-1" = "b6b4ab4a-1a14-51c3-ade2-3de932f6b209"
    ∧ uuid5 NAMESPACE_DNS "conv-1" ≠ sample_id_to_uuid "conv-1" :=
  ⟨(sample_id_to_uuid_spec "conv-1").2.1 "conv-1" rfl,
   (sample_id_to_uuid_spec "conv-1").2.2.1, by decide, by decide⟩

/-- C9: `normalize_locomo_date` is total: when the regex matches and the
captured day, month name and year form a valid calendar date, the result
is the `YYYY-MM-DD` rendering; on a failed match or a failed parse the
input is returned unchanged.  The normalized value is the payload's
`session_date`, while the header record keeps the raw label. -/
theorem normalize_locomo_date_total (s : String) :
    (locomoMatch (stripChars s.toList) = none → normalize_locomo_date s = s)
    ∧ (∀ g, locomoMatch (stripChars s.toList) = some g →
        strptimeDMY g.day g.monthName g.year = none → normalize_locomo_date s = s)
    ∧ (∀ g y m d, locomoMatch (stripChars s.toList) = some g →
        strptimeDMY g.day g.monthName g.year = some (y, m, d) →
        normalize_locomo_date s = isoString y m d ∧ isIsoShape (isoString y m d) = true)
    ∧ (∀ (sid : String) (conv : Conv) (sk : String),
        (sessionPayload sid conv sk).session_date
          = normalize_locomo_date ((convDateLabel conv sk).getD "unknown date")
        ∧ ((sessionPayload sid conv sk).turns)[0]?
          = some (headerRecord ((convDateLabel conv sk).getD "unknown date"))) := by
  refine ⟨?_, ?_, ?_, fun sid conv sk =>
    ⟨rfl, by simp [sessionPayload, sessionTurnsOut]⟩⟩
  · intro h
    simp only [normalize_locomo_date, h]
  · intro g hm hp
    simp only [normalize_locomo_date, hm, hp]
  · intro g y m d hm hp
    refine ⟨?_, isoString_shape y m d⟩
    simp only [normalize_locomo_date, hm, hp]

/-- Witness for C9 at the docstring example date. -/
theorem normalize_locomo_date_total_witness :
    normalize_locomo_date "1:56 pm on 8 May, 2023" = isoString 2023 5 8
    ∧ isIsoShape (isoString 2023 5 8) = true :=
  (normalize_locomo_date_total "1:56 pm on 8 May, 2023").2.2.1
    { day := ['8'], monthName := ['M', 'a', 'y'], year := ['2', '0', '2', '3'] }
    2023 5 8 (by decide) (by decide)

/-- C6 counterexample: the session payload does not consist of the fields
`agent_id`, `conversation_id` and `turns` alone — it carries a fourth
field `session_date`, populated with the normalized date label. -/
theorem payload_fields_counterexample :
    payloadKeys ≠ ["agent_id", "conversation_id", "turns"]
    ∧ "session_date" ∈ payloadKeys
    ∧ (sessionPayload "conv-1" demoConv "session_1").session_date = "2023-05-08" :=
  ⟨by decide, by decide, by decide⟩

/-- C6 (amended): for every session, in sorted key order, exactly one POST
request is built for `{base_url}/memory/ingest`, whose JSON body consists
of the fields `agent_id` (the derived identifier for the sample's
`sample_id`), `conversation_id` equal to `"<sample_id>_session_<N>"`,
`turns` (the header record first, followed by the paired turns), and
`session_date` (the normalized date label) — and no other fields. -/
theorem session_requests_shape (base sid : String) (conv : Conv) :
    (ingest_sample_requests base sid conv).length = (sessionKeys (convKeys conv)).length
    ∧ (∀ (i : Nat) (sk : String), (sessionKeys (convKeys conv))[i]? = some sk →
        (ingest_sample_requests base sid conv)[i]?
          = some ({ url := base ++ "/memory/ingest"
                  , body :=
                    { agent_id := sample_id_to_uuid sid
                    , conversation_id := sid ++ "_session_" ++ sessionNumStr sk
                    , turns := headerRecord ((convDateLabel conv sk).getD "unknown date")
                        :: pair_turns (convTurns conv sk)
                    , session_date :=
                        normalize_locomo_date ((convDateLabel conv sk).getD "unknown date") }
                  } : Request))
    ∧ payloadKeys = ["agent_id", "conversation_id", "turns", "session_date"] := by
  refine ⟨by simp [ingest_sample_requests], ?_, rfl⟩
  intro i sk h
  rw [ingest_sample_requests, List.getElem?_map, h]
  rfl

/-- Witness for C6 at the demo conversation. -/
theorem session_requests_shape_witness :
    (ingest_sample_requests "http://localhost:1337" "conv-1" demoConv)[0]?
      = some ({ url := "http://localhost:1337" ++ "/memory/ingest"
              , body :=
                { agent_id := sample_id_to_uuid "conv-1"
                , conversation_id := "conv-1" ++ "_session_" ++ sessionNumStr "session_1"
                , turns := headerRecord ((convDateLabel demoConv "session_1").getD "unknown date")
                    :: pair_turns (convTurns demoConv "session_1")
                , session_date :=
                    normalize_locomo_date
                      ((convDateLabel demoConv "session_1").getD "unknown date") }
              } : Request) :=
  (session_requests_shape "http://localhost:1337" "conv-1" demoConv).2.1 0 "session_1"
    (by decide)

/-- C7: a transport failure or a non-2xx response is fatal and never
retried: after any prefix of successful session posts, a failing request
ends the session loop in an error having issued nothing beyond it, and an
errored sample ends the whole run with that error, issuing no request of
any later sample. -/
theorem post_failure_fatal (oracle : Request → PostOutcome) (base : String) :
    (∀ pre r post, (∀ q ∈ pre, postOk (oracle q) = true) → postOk (oracle r) = false →
        runSessions oracle (pre ++ r :: post) = (pre ++ [r], Except.error ()))
    ∧ (∀ s rest, (runSessions oracle (sampleRequests base s)).2 = Except.error () →
        ingestRun oracle base (s :: rest)
          = ((runSessions oracle (sampleRequests base s)).1, Except.error ())) := by
  constructor
  · intro pre
    induction pre with
    | nil =>
        intro r post _ hfail
        simp [runSessions, hfail]
    | cons q qs ih =>
        intro r post hpre hfail
        have hq : postOk (oracle q) = true := hpre q (List.mem_cons_self q qs)
        have hrec := ih r post (fun x hx => hpre x (List.mem_cons_of_mem q hx)) hfail
        simp [runSessions, hq, hrec]
  · intro s rest h
    rcases hrs : runSessions oracle (sampleRequests base s) with ⟨tr, res⟩
    cases res with
    | error e =>
        cases e
        simp only [ingestRun]
        rw [hrs]
    | ok n =>
        rw [hrs] at h
        simp at h

/-- Witness for C7: a transport failure on the first session stops the
loop at once. -/
theorem post_failure_fatal_witness :
    runSessions (fun _ => PostOutcome.transportError) ([] ++ demoRequest :: [])
      = ([] ++ [demoRequest], Except.error ()) :=
  (post_failure_fatal (fun _ => PostOutcome.transportError) "b").1 [] demoRequest []
    (fun q hq => absurd hq (List.not_mem_nil q)) rfl

/-- C10: the sample cap is applied only when truthy: a positive cap keeps
the first `min n (length)` samples in order, while a cap of 0 — like no
cap — keeps every sample. -/
theorem samples_cap {α : Type} (xs : List α) :
    (∀ n : Int, 0 < n → applyCap (some n) xs = xs.take (min n.toNat xs.length))
    ∧ applyCap (some 0) xs = xs
    ∧ applyCap none xs = xs := by
  refine ⟨?_, by simp [applyCap], rfl⟩
  intro n hn
  have hne : n ≠ 0 := by omega
  have htake : xs.take n.toNat = xs.take (min n.toNat xs.length) := by
    rcases Nat.le_total n.toNat xs.length with h | h
    · have hm : min n.toNat xs.length = n.toNat := by omega
      rw [hm]
    · have hm : min n.toNat xs.length = xs.length := by omega
      rw [hm, List.take_length, List.take_of_length_le h]
  have happ : applyCap (some n) xs = pyTrunc xs n := by
    simp only [applyCap]
    rw [if_pos hne]
  rw [happ]
  simp only [pyTrunc]
  rw [if_pos hn.le]
  exact htake

/-- Witness for C10 with a cap of 2 over three samples. -/
theorem samples_cap_witness :
    applyCap (some 2) ["s1", "s2", "s3"] = ["s1", "s2"] :=
  ((samples_cap ["s1", "s2", "s3"]).1 2 (by decide)).trans (by decide)

end Ingest
